import Mathlib

/-!
Verification of the raycasting game (Rust sources under src/).

Shallow embedding conventions:
* Rust `f32` coordinates and times are embedded as `ℚ`; `f32` literals are
  embedded by their decimal value.  Special IEEE values that the depth walk
  can produce (`INFINITY`, `NEG_INFINITY`, `NaN`) are embedded by the
  four-constructor domain `F` below, whose operations follow IEEE semantics
  (and Rust's `f32::max`) on the shapes of values that actually occur.
* Rust `i32` / `usize` are embedded as `ℤ` / `ℕ` (the levels are far below
  any overflow bound).  The cast `x as i32` on a float is truncation toward
  zero, embedded by `ratTrunc`.
* Fallible operations (slice indexing) are embedded with `Option`.
* `rand::thread_rng` driven behaviour (ghost placement, ghost steering) and
  the held-key/trigonometry player motion are abstracted as oracle
  parameters; every theorem below quantifies over all oracle values, so the
  results cover every possible random outcome.
* The audio collaborator is fire-and-forget; it is embedded as an event log
  (`sfx` list, `music` option) inside the game state.
-/

/-- Rust's `as i32` cast of a nonnegative-or-negative float: truncation toward
zero (saturation is irrelevant at the magnitudes the game uses).
`Int.tdiv` is exactly truncating division. -/
def ratTrunc (q : ℚ) : ℤ := q.num.tdiv q.den

theorem ratTrunc_eq_floor (q : ℚ) (h : 0 ≤ q) : ratTrunc q = ⌊q⌋ := by
  unfold ratTrunc
  rw [Rat.floor_def]
  exact Int.tdiv_eq_ediv (Rat.num_nonneg.mpr h) (by positivity)

theorem ratTrunc_eq_ceil (q : ℚ) (h : q < 0) : ratTrunc q = ⌈q⌉ := by
  unfold ratTrunc
  have h1 : q.num.tdiv q.den = -((-q).num.tdiv (-q).den) := by
    rw [Rat.num_neg_eq_neg_num, Rat.den_neg_eq_den, Int.neg_tdiv, neg_neg]
  rw [h1, Int.tdiv_eq_ediv (Rat.num_nonneg.mpr (by linarith)) (by positivity),
    ← Rat.floor_def, Int.floor_neg, neg_neg]

/-- Truncation toward zero never moves down past the next integer below. -/
theorem ratTrunc_gt (q : ℚ) : q - 1 < (ratTrunc q : ℚ) := by
  rcases lt_or_le q 0 with h | h
  · rw [ratTrunc_eq_ceil q h]
    have := Int.le_ceil q
    linarith
  · rw [ratTrunc_eq_floor q h]
    have := Int.lt_floor_add_one q
    linarith

theorem ratTrunc_le (q : ℚ) (h : 0 ≤ q) : (ratTrunc q : ℚ) ≤ q := by
  rw [ratTrunc_eq_floor q h]; exact Int.floor_le q

theorem ratTrunc_nonneg (q : ℚ) (h : 0 ≤ q) : 0 ≤ ratTrunc q := by
  rw [ratTrunc_eq_floor q h]; positivity

/-! ## Level (src/level.rs) -/

/-- Structure `Level` from src/level.rs: rectangular tile grid in row-major order. -/
structure Level where
  w : ℤ
  h : ℤ
  map : List ℤ
  spawn : ℤ × ℤ
  ghost_count : ℕ
deriving DecidableEq

/-- Translation of `Level::tile` with the backing-grid access made fallible (`none` embeds
the Rust index panic; the totality theorem for C2 shows it never occurs for
well-formed levels). Out of range ⇒ wall id `1`. -/
def Level.tile_opt (l : Level) (x y : ℤ) : Option ℤ :=
  if x < 0 ∨ y < 0 ∨ l.w ≤ x ∨ l.h ≤ y then some 1
  else l.map.get? (y * l.w + x).toNat

/-- Translation of `Level::tile` as used by the rest of the code. -/
def Level.tile (l : Level) (x y : ℤ) : ℤ := (l.tile_opt x y).getD 0

/-- Direct backing-grid read `level.map[(y*w + x) as usize]` as performed by
`build_sprites_for_level` (bypassing `tile`). -/
def Level.cell (l : Level) (x y : ℤ) : ℤ := l.map.getD (y * l.w + x).toNat 0

/-- Level `level1` from src/level.rs (w=24, h=16): border ring, one horizontal wall
row at y=5 for x in 3..21, two vertical wall columns at x=8 and x=15 for
y in 3..13. -/
def level1 : Level :=
  let m0 := List.replicate 384 (0 : ℤ)
  let m1 := (List.range 24).foldl (fun m x => (m.set x 1).set (15 * 24 + x) 1) m0
  let m2 := (List.range 16).foldl (fun m y => (m.set (y * 24) 1).set (y * 24 + 23) 1) m1
  let m3 := (List.range' 3 18).foldl
    (fun m x => m.set (5 * 24 + x) (if x % 2 == 0 then 2 else 3)) m2
  let m4 := (List.range' 3 10).foldl
    (fun m y => (m.set (y * 24 + 8) 4).set (y * 24 + 15) 5) m3
  ⟨24, 16, m4, (2, 2), 3⟩

/-- Level `level2` from src/level.rs (w=28, h=18). -/
def level2 : Level :=
  let m0 := List.replicate 504 (0 : ℤ)
  let m1 := (List.range 28).foldl (fun m x => (m.set x 2).set (17 * 28 + x) 2) m0
  let m2 := (List.range 18).foldl (fun m y => (m.set (y * 28) 2).set (y * 28 + 27) 2) m1
  let m3 := (List.range' 2 7 2).foldl (fun m y =>
    (List.range' 2 24).foldl (fun m2i x =>
      if x % 4 != 0 then m2i.set (y * 28 + x) (if (x + y) % 3 == 0 then 3 else 4)
      else m2i) m) m2
  let m4 := (List.range' 3 11 2).foldl (fun m x =>
    (List.range' 3 12).foldl (fun m2i y =>
      if y % 3 != 0 then m2i.set (y * 28 + x) 5 else m2i) m) m3
  ⟨28, 18, m4, (1, 1), 5⟩

/-- Level `level3` from src/level.rs (w=32, h=20). -/
def level3 : Level :=
  let m0 := List.replicate 640 (0 : ℤ)
  let m1 := (List.range 32).foldl (fun m x => (m.set x 3).set (19 * 32 + x) 3) m0
  let m2 := (List.range 20).foldl (fun m y => (m.set (y * 32) 3).set (y * 32 + 31) 3) m1
  let m3 := (List.range' 2 16).foldl (fun m y =>
    (List.range' 2 28).foldl (fun m2i x =>
      if (x + y) % 2 == 0 && x % 6 != 0 then
        m2i.set (y * 32 + x) (if x % 3 == 0 then 4 else 5)
      else m2i) m) m2
  let m4 := (List.range' 4 24).foldl (fun m x => m.set (10 * 32 + x) 1) m3
  let m5 := (List.range' 4 12).foldl
    (fun m y => (m.set (y * 32 + 10) 2).set (y * 32 + 21) 2) m4
  ⟨32, 20, m5, (2, 2), 7⟩

/-- Function `get_level` from src/level.rs: any index past the catalog yields level 3. -/
def get_level (idx : ℕ) : Level :=
  match idx with
  | 0 => level1
  | 1 => level2
  | _ => level3

set_option maxRecDepth 100000

/-! ## Sprites (src/sprites.rs) -/

inductive SpriteKind where
  | Pellet : SpriteKind
  | Ghost : SpriteKind
deriving DecidableEq

structure Sprite where
  x : ℚ
  y : ℚ
  kind : SpriteKind
  anim_frame : ℕ
  anim_time : ℚ
deriving DecidableEq

/-- Constructor `Sprite::new`. -/
def Sprite.new (x y : ℚ) (kind : SpriteKind) : Sprite := ⟨x, y, kind, 0, 0⟩

/-! ## Player and game state (src/game.rs) -/

structure Player where
  x : ℚ
  y : ℚ
  dir_x : ℚ
  dir_y : ℚ
  plane_x : ℚ
  plane_y : ℚ
  move_speed : ℚ
  rot_speed : ℚ
deriving DecidableEq

inductive Mode where
  | Menu : Mode
  | Playing : Mode
  | Paused : Mode
  | Win : Mode
  | GameOver : Mode
deriving DecidableEq

/-- The subset of `winit::VirtualKeyCode` the game inspects for mode
transitions; every other key is `Other`. -/
inductive Key where
  | Key1 : Key
  | Key2 : Key
  | Key3 : Key
  | Return : Key
  | KeyR : Key
  | KeyP : Key
  | Other : Key
deriving DecidableEq

/-- Game state (`struct Game`), with the audio collaborator embedded as an
event log (`sfx` one-shots in firing order, `music` current loop) and the
held-key array as a predicate. -/
structure Game where
  mode : Mode
  level_index : ℕ
  level : Level
  player : Player
  pressed : Key → Bool
  fps : ℚ
  fps_acc : ℚ
  fps_count : ℕ
  sprites : List Sprite
  pellets_remaining : ℕ
  mouse_sensitivity : ℚ
  lives : ℤ
  invincible_time : ℚ
  time : ℚ
  death_anim_t : ℚ
  total_pellets : ℕ
  sfx : List String
  music : Option String

/-- Translation of `Game::is_wall`: negative coordinates are walls; then truncate to a cell
index, re-check bounds, and consult the tile id. -/
def is_wall (l : Level) (x y : ℚ) : Bool :=
  if x < 0 ∨ y < 0 then true
  else
    let xi := ratTrunc x
    let yi := ratTrunc y
    if xi < 0 ∨ yi < 0 ∨ l.w ≤ xi ∨ l.h ≤ yi then true
    else decide (0 < l.tile xi yi)

/-- Translation of `Game::try_move`: per-axis independent application of the candidate
displacement; the Y test uses the possibly-updated X. -/
def try_move (l : Level) (p : Player) (dx dy : ℚ) : Player :=
  let new_x := p.x + dx
  let new_y := p.y + dy
  let p1 := if is_wall l new_x p.y = false then { p with x := new_x } else p
  if is_wall l p1.x new_y = false then { p1 with y := new_y } else p1

/-! ## Deterministic entity population (`Game::build_sprites_for_level`) -/

/-- First scan of `build_sprites_for_level`: row-major over all cells, skip
non-open cells, skip the spawn, keep cells with `(x + y*3) % 6 == 0`. -/
def pattern_cells (l : Level) : List (ℤ × ℤ) :=
  (List.range l.h.toNat).flatMap (fun y =>
    (List.range l.w.toNat).filterMap (fun x =>
      let xi : ℤ := x
      let yi : ℤ := y
      if l.cell xi yi = 0 ∧ (xi, yi) ≠ l.spawn ∧ (xi + yi * 3) % 6 = 0
      then some (xi, yi) else none))

/-- Secondary scan: first interior (`1..h-1` × `1..w-1`) open non-spawn cell
in row-major order (`break 'outer` at the first hit). -/
def interior_scan (l : Level) : Option (ℤ × ℤ) :=
  ((List.range' 1 (l.h - 2).toNat).flatMap (fun y =>
    (List.range' 1 (l.w - 2).toNat).map (fun x => ((x : ℤ), (y : ℤ))))).find?
    (fun c => decide (l.cell c.1 c.2 = 0 ∧ c ≠ l.spawn))

/-- Translation of `Game::build_sprites_for_level`.  Ghost placement draws cells from
`thread_rng` (rejection sampling, bounded attempts); it is abstracted by the
oracle list `ghosts` appended after the pellets, exactly where the source
pushes the ghosts. -/
def build_sprites_for_level (l : Level) (ghosts : List Sprite) : List Sprite :=
  let sprites := (pattern_cells l).map
    (fun c => Sprite.new ((c.1 : ℚ) + 1 / 2) ((c.2 : ℚ) + 1 / 2) SpriteKind.Pellet)
  let sprites2 :=
    if sprites.any (fun s => s.kind == SpriteKind.Pellet) then sprites
    else
      match interior_scan l with
      | some c =>
          sprites ++ [Sprite.new ((c.1 : ℚ) + 1 / 2) ((c.2 : ℚ) + 1 / 2) SpriteKind.Pellet]
      | none => sprites
  sprites2 ++ ghosts

/-- Count `sprites.iter().filter(|s| s.kind == Pellet).count()`. -/
def count_pellets (ss : List Sprite) : ℕ :=
  (ss.filter (fun s => s.kind == SpriteKind.Pellet)).length

/-! ## Pickup and hazard resolution (`Game::check_collisions_and_pickups`) -/

/-- The reduced pickup radius squared, `0.18 * 0.18`. -/
def pickup_r2 : ℚ := (18 / 100) * (18 / 100)

/-- The ghost hit radius squared, `0.30 * 0.30`. -/
def hit_r2 : ℚ := (30 / 100) * (30 / 100)

/-- The enumerate-and-test pass that fills `collected_indices`. -/
def collected_pellet_indices (g : Game) : List ℕ :=
  ((g.sprites.enum.filter (fun p =>
    p.2.kind == SpriteKind.Pellet &&
      decide ((g.player.x - p.2.x) * (g.player.x - p.2.x) +
        (g.player.y - p.2.y) * (g.player.y - p.2.y) < pickup_r2))).map Prod.fst)

/-- Model of `sort_unstable` on the index vector (insertion sort; the vector is a list
of distinct naturals so any comparison sort gives the same, ascending,
result). -/
def sort_indices (l : List ℕ) : List ℕ :=
  l.foldr (fun x acc => acc.takeWhile (fun a => a < x) ++ x :: acc.dropWhile (fun a => a < x)) []

/-- Pickup phase (first half of `check_collisions_and_pickups`).  Note the
source drains `collected_indices` to do the descending-order removals and
*then* reads `collected_indices.len()`, which is 0 after the drain; the
decrement/sound branch below is therefore dead, exactly as in the source. -/
def pickup_phase (g : Game) : Game :=
  let idxs := collected_pellet_indices g
  if idxs.isEmpty then g
  else
    let sprites2 := (sort_indices idxs).reverse.foldl (fun ss i => ss.eraseIdx i) g.sprites
    -- `collected_indices.drain(..)` has emptied the vector, so `len()` is 0
    let collected := ([] : List ℕ).length
    if 0 < collected then
      { g with sprites := sprites2,
               pellets_remaining :=
                 if collected ≤ g.pellets_remaining then g.pellets_remaining - collected
                 else 0,
               sfx := g.sfx ++ ["assets/sfx/pellet.wav"] }
    else { g with sprites := sprites2 }

/-- The ghost proximity test of the hazard phase. -/
def ghost_hit (g : Game) : Bool :=
  g.sprites.any (fun s => s.kind == SpriteKind.Ghost &&
    decide ((g.player.x - s.x) * (g.player.x - s.x) +
      (g.player.y - s.y) * (g.player.y - s.y) < hit_r2))

/-- Hazard phase (second half of `check_collisions_and_pickups`): only
evaluated while not invincible and in `Playing`; on a hit decrement lives and
either respawn with a 2-second invulnerability window or go to game over. -/
def hazard_phase (g : Game) : Game :=
  if g.invincible_time ≤ 0 ∧ g.mode = Mode.Playing then
    if ghost_hit g then
      let lives2 := g.lives - 1
      let g2 := { g with lives := lives2, sfx := g.sfx ++ ["assets/sfx/hit.wav"] }
      if 0 < lives2 then
        { g2 with
            player := { g2.player with
              x := (g2.level.spawn.1 : ℚ) + 1 / 2,
              y := (g2.level.spawn.2 : ℚ) + 1 / 2 },
            invincible_time := 2 }
      else
        { g2 with mode := Mode.GameOver, death_anim_t := 0,
                  sfx := g2.sfx ++ ["assets/sfx/game_over.wav"] }
    else g
  else g

/-- Translation of `Game::check_collisions_and_pickups`. -/
def check_collisions_and_pickups (g : Game) : Game :=
  hazard_phase (pickup_phase g)

/-! ## Frame update and state machine (`Game::update`, `Game::on_key`) -/

/-- The frame-rate bookkeeping at the top of `Game::update` (lines 240-246);
it touches only the three fps fields. -/
def fps_tick (g : Game) (dt : ℚ) : Game :=
  let acc := g.fps_acc + dt
  let cnt := g.fps_count + 1
  if 1 ≤ acc then { g with fps := (cnt : ℚ) / acc, fps_acc := 0, fps_count := 0 }
  else { g with fps_acc := acc, fps_count := cnt }

/-- The `Mode::Playing` arm of `Game::update` (lines 258-273): advance the
game clock, decay the invulnerability timer (floored at 0), apply the motion
of `handle_input`/`update_sprites` (the oracles `pose` and `moved` — held
keys, trigonometric rotation, `try_move`, pellet animation and `thread_rng`
ghost steering mutate only the player pose and the sprite list), resolve
collisions and pickups, and transition to `Win` when no pellets remain. -/
def playing_frame (g : Game) (dt : ℚ) (pose : Player) (moved : List Sprite) : Game :=
  let g1 := { g with
    time := g.time + dt,
    invincible_time :=
      if 0 < g.invincible_time then max (g.invincible_time - dt) 0
      else g.invincible_time }
  let g2 := { g1 with player := pose, sprites := moved }
  let g3 := check_collisions_and_pickups g2
  if g3.pellets_remaining = 0 then
    { g3 with mode := Mode.Win, sfx := g3.sfx ++ ["assets/sfx/win.wav"] }
  else g3

/-- Translation of `Game::update`: fps bookkeeping, then mode dispatch; gameplay logic runs
only in `Playing`, `GameOver` only advances the death animation. -/
def update (g : Game) (dt : ℚ) (pose : Player) (moved : List Sprite) : Game :=
  let gf := fps_tick g dt
  match gf.mode with
  | Mode.Menu => gf
  | Mode.Win => gf
  | Mode.GameOver => { gf with death_anim_t := gf.death_anim_t + dt }
  | Mode.Paused => gf
  | Mode.Playing => playing_frame gf dt pose moved

/-- Translation of `Game::start_level`. -/
def start_level (g : Game) (index : ℕ) (ghosts : List Sprite) : Game :=
  let l := get_level index
  let sprites := build_sprites_for_level l ghosts
  { g with
      level_index := index,
      level := l,
      player := { g.player with
        x := (l.spawn.1 : ℚ) + 1 / 2, y := (l.spawn.2 : ℚ) + 1 / 2,
        dir_x := -1, dir_y := 0, plane_x := 0, plane_y := 66 / 100 },
      sprites := sprites,
      total_pellets := count_pellets sprites,
      pellets_remaining := count_pellets sprites,
      mode := Mode.Playing,
      lives := 3,
      invincible_time := 0,
      death_anim_t := 0,
      time := 0,
      music := some ("assets/music/theme.ogg") }

/-- Translation of `Game::on_key`: update the held-key digest, then dispatch on the mode.
A level start needs the ghost-placement oracle. -/
def on_key (g : Game) (key : Key) (pr : Bool) (ghosts : List Sprite) : Game :=
  let g0 := { g with pressed := fun k => if k = key then pr else g.pressed k }
  match g0.mode with
  | Mode.Menu =>
    if pr then
      match key with
      | Key.Key1 => start_level g0 0 ghosts
      | Key.Key2 => start_level g0 1 ghosts
      | Key.Key3 => start_level g0 2 ghosts
      | _ => g0
    else g0
  | Mode.Win =>
    if pr ∧ key = Key.Return then { g0 with mode := Mode.Menu } else g0
  | Mode.GameOver =>
    if pr then
      match key with
      | Key.KeyR => start_level g0 g0.level_index ghosts
      | Key.Return => { g0 with mode := Mode.Menu }
      | _ => g0
    else g0
  | Mode.Paused =>
    if pr then
      match key with
      | Key.KeyP => { g0 with mode := Mode.Playing }
      | Key.Return => { g0 with mode := Mode.Menu }
      | _ => g0
    else g0
  | Mode.Playing =>
    if pr ∧ key = Key.KeyP then { g0 with mode := Mode.Paused } else g0

/-- Translation of `Game::on_mouse_delta`: outside `Playing` it is a no-op; in `Playing` it
rotates heading and camera plane (trigonometry abstracted by the oracle
values; position, mode, lives and timers are untouched, as in `rotate`). -/
def on_mouse_delta (g : Game) (d1 d2 p1 p2 : ℚ) : Game :=
  if g.mode ≠ Mode.Playing then g
  else { g with player := { g.player with dir_x := d1, dir_y := d2, plane_x := p1, plane_y := p2 } }

/-- Translation of `Game::new(width, _height)` (mode starts at `Menu`). -/
def init_game (ghosts : List Sprite) : Game :=
  let l := get_level 0
  let sprites := build_sprites_for_level l ghosts
  { mode := Mode.Menu,
    level_index := 0,
    level := l,
    player := { x := (l.spawn.1 : ℚ) + 1 / 2, y := (l.spawn.2 : ℚ) + 1 / 2,
                dir_x := -1, dir_y := 0, plane_x := 0, plane_y := 66 / 100,
                move_speed := 3, rot_speed := 2 },
    pressed := fun _ => false,
    fps := 0, fps_acc := 0, fps_count := 0,
    sprites := sprites,
    pellets_remaining := count_pellets sprites,
    mouse_sensitivity := 35 / 10000,
    lives := 3,
    invincible_time := 0,
    time := 0,
    death_anim_t := 0,
    total_pellets := count_pellets sprites,
    sfx := [],
    music := none }

/-- One host-driven event: a key event, a frame update (with its motion
oracles), or a pointer-delta sample. -/
inductive GameStep where
  | key (k : Key) (pr : Bool) (ghosts : List Sprite) : GameStep
  | upd (dt : ℚ) (pose : Player) (moved : List Sprite) : GameStep
  | mouse (d1 d2 p1 p2 : ℚ) : GameStep

def apply_step (g : Game) : GameStep → Game
  | GameStep.key k pr ghosts => on_key g k pr ghosts
  | GameStep.upd dt pose moved => update g dt pose moved
  | GameStep.mouse d1 d2 p1 p2 => on_mouse_delta g d1 d2 p1 p2

/-- States reachable from `Game::new` by any sequence of input events and
updates, over all oracle outcomes. -/
inductive Reachable : Game → Prop where
  | init (ghosts : List Sprite) : Reachable (init_game ghosts)
  | step (g : Game) (st : GameStep) : Reachable g → Reachable (apply_step g st)

/-! ## IEEE-style value domain for the depth walk (src/raycaster.rs)

The wall pass manipulates `f32` values that can be `INFINITY` (the guarded
delta distances), and in principle `NEG_INFINITY`/`NaN` through arithmetic on
infinities.  `F` embeds exactly these shapes over exact rationals; each
operation follows the IEEE-754 rule (and `f32::max`'s NaN handling) for the
constructor combinations. -/

inductive F where
  | nan : F
  | inf : F
  | ninf : F
  | fin : ℚ → F
deriving DecidableEq

/-- IEEE strict `<`: NaN is incomparable to everything. -/
def F.blt : F → F → Bool
  | F.nan, _ => false
  | _, F.nan => false
  | F.inf, _ => false
  | _, F.inf => true
  | F.ninf, F.ninf => false
  | F.ninf, F.fin _ => true
  | F.fin _, F.ninf => false
  | F.fin a, F.fin b => decide (a < b)

/-- IEEE addition on the embedded shapes. -/
def F.add : F → F → F
  | F.nan, _ => F.nan
  | _, F.nan => F.nan
  | F.inf, F.ninf => F.nan
  | F.ninf, F.inf => F.nan
  | F.inf, _ => F.inf
  | _, F.inf => F.inf
  | F.ninf, _ => F.ninf
  | _, F.ninf => F.ninf
  | F.fin a, F.fin b => F.fin (a + b)

/-- IEEE multiplication on the embedded shapes (`0 * ±inf = NaN`). -/
def F.mul : F → F → F
  | F.nan, _ => F.nan
  | _, F.nan => F.nan
  | F.inf, F.inf => F.inf
  | F.inf, F.ninf => F.ninf
  | F.ninf, F.inf => F.ninf
  | F.ninf, F.ninf => F.inf
  | F.inf, F.fin b => if b = 0 then F.nan else if 0 < b then F.inf else F.ninf
  | F.fin a, F.inf => if a = 0 then F.nan else if 0 < a then F.inf else F.ninf
  | F.ninf, F.fin b => if b = 0 then F.nan else if 0 < b then F.ninf else F.inf
  | F.fin a, F.ninf => if a = 0 then F.nan else if 0 < a then F.ninf else F.inf
  | F.fin a, F.fin b => F.fin (a * b)

/-- IEEE division on the embedded shapes (`x/0 = ±inf` for `x ≠ 0`,
`0/0 = NaN`; only finite/finite is reached by the wall pass). -/
def F.div : F → F → F
  | F.nan, _ => F.nan
  | _, F.nan => F.nan
  | F.inf, F.inf => F.nan
  | F.inf, F.ninf => F.nan
  | F.ninf, F.inf => F.nan
  | F.ninf, F.ninf => F.nan
  | F.inf, F.fin b => if 0 ≤ b then F.inf else F.ninf
  | F.ninf, F.fin b => if 0 ≤ b then F.ninf else F.inf
  | F.fin _, F.inf => F.fin 0
  | F.fin _, F.ninf => F.fin 0
  | F.fin a, F.fin b =>
    if b = 0 then (if a = 0 then F.nan else if 0 < a then F.inf else F.ninf)
    else F.fin (a / b)

def F.abs : F → F
  | F.nan => F.nan
  | F.inf => F.inf
  | F.ninf => F.inf
  | F.fin a => F.fin |a|

/-- Rust `f32::max`: if one operand is NaN the other is returned. -/
def F.fmax : F → F → F
  | F.nan, b => b
  | a, F.nan => a
  | F.inf, _ => F.inf
  | _, F.inf => F.inf
  | F.ninf, b => b
  | a, F.ninf => a
  | F.fin a, F.fin b => F.fin (max a b)

/-! ## The DDA wall walk of `render_scene` (src/raycaster.rs lines 26-102) -/

/-- The per-column mutable state of the DDA loop. -/
structure DdaSt where
  map_x : ℤ
  map_y : ℤ
  step_x : ℤ
  step_y : ℤ
  side_dist_x : F
  side_dist_y : F
  delta_dist_x : F
  delta_dist_y : F
  side : ℕ
deriving DecidableEq

/-- Computation `delta_dist = if ray == 0 { INFINITY } else { (1.0/ray).abs() }`. -/
def delta_dist (r : ℚ) : F := if r = 0 then F.inf else F.fin |1 / r|

/-- Initial DDA state for one column (raycaster.rs lines 31-46); `side`
starts at 0 as in the source. -/
def dda_init (px py rdx rdy : ℚ) : DdaSt :=
  let map_x := ratTrunc px
  let map_y := ratTrunc py
  let ddx := delta_dist rdx
  let ddy := delta_dist rdy
  let sx : ℤ := if rdx < 0 then -1 else 1
  let sdx := if rdx < 0 then F.mul (F.fin (px - (map_x : ℚ))) ddx
             else F.mul (F.fin ((map_x : ℚ) + 1 - px)) ddx
  let sy : ℤ := if rdy < 0 then -1 else 1
  let sdy := if rdy < 0 then F.mul (F.fin (py - (map_y : ℚ))) ddy
             else F.mul (F.fin ((map_y : ℚ) + 1 - py)) ddy
  ⟨map_x, map_y, sx, sy, sdx, sdy, ddx, ddy, 0⟩

/-- One iteration of the `while hit == 0` loop: advance the axis with the
smaller accumulated side distance. -/
def dda_advance (s : DdaSt) : DdaSt :=
  if F.blt s.side_dist_x s.side_dist_y then
    { s with side_dist_x := F.add s.side_dist_x s.delta_dist_x,
             map_x := s.map_x + s.step_x, side := 0 }
  else
    { s with side_dist_y := F.add s.side_dist_y s.delta_dist_y,
             map_y := s.map_y + s.step_y, side := 1 }

/-- Outcome of the walk: `hit = none` embeds the source's `hit = -1` (ray
left the grid), `hit = some t` a wall hit with tile id `t`. -/
structure DdaRes where
  hit : Option ℤ
  st : DdaSt
deriving DecidableEq

/-- The `while hit == 0` loop with explicit fuel; `none` means the fuel ran
out (the totality lemma below shows enough fuel always exists). -/
def dda_run (l : Level) : ℕ → DdaSt → Option DdaRes
  | 0, _ => none
  | n + 1, s =>
    let s2 := dda_advance s
    if s2.map_x < 0 ∨ s2.map_y < 0 ∨ l.w ≤ s2.map_x ∨ l.h ≤ s2.map_y then
      some ⟨none, s2⟩
    else if 0 < l.tile s2.map_x s2.map_y then
      some ⟨some (l.tile s2.map_x s2.map_y), s2⟩
    else
      dda_run l n s2

/-- Iterations the walk can still make on one axis before leaving the grid on
that axis (the step sign is fixed for the whole walk). -/
def axis_measure (bound pos step : ℤ) : ℕ :=
  if step = 1 then (bound - pos).toNat else (pos + 1).toNat

def dda_measure (l : Level) (s : DdaSt) : ℕ :=
  axis_measure l.w s.map_x s.step_x + axis_measure l.h s.map_y s.step_y

/-- Perpendicular wall distance of a finished column (raycaster.rs lines
70-78) before the `.abs().max(1e-4)` clamp; the no-hit case stores the
`1e6` sentinel. -/
def perp_raw (px py rdx rdy : ℚ) (r : DdaRes) : F :=
  match r.hit with
  | none => F.fin 1000000
  | some _ =>
    if r.st.side = 0 then
      F.div (F.fin ((r.st.map_x : ℚ) - px + (1 - (r.st.step_x : ℚ)) / 2)) (F.fin rdx)
    else
      F.div (F.fin ((r.st.map_y : ℚ) - py + (1 - (r.st.step_y : ℚ)) / 2)) (F.fin rdy)

/-- The ray direction of screen column `x` out of `w`:
`camera_x = 2*x/w - 1`, `ray = dir + plane * camera_x`. -/
def column_ray (p : Player) (w x : ℕ) : ℚ × ℚ :=
  let camera_x : ℚ := 2 * (x : ℚ) / (w : ℚ) - 1
  (p.dir_x + p.plane_x * camera_x, p.dir_y + p.plane_y * camera_x)

/-- The value stored into `depth.cols[x]` for one column: run the DDA to
completion, then `perp.abs().max(1e-4)` (the sentinel also passes through the
clamp, as in the source).  The `none` fuel-exhaustion branch is dead by
`dda_run_total`. -/
def column_depth (l : Level) (p : Player) (w x : ℕ) : F :=
  ((dda_run l
      (dda_measure l (dda_init p.x p.y (column_ray p w x).1 (column_ray p w x).2) + 1)
      (dda_init p.x p.y (column_ray p w x).1 (column_ray p w x).2)).map
    (fun r =>
      F.fmax (F.abs (perp_raw p.x p.y (column_ray p w x).1 (column_ray p w x).2 r))
        (F.fin (1 / 10000)))).getD (F.fin 1000000)

/-- The wall pass of `render_scene`: for each column `x` in `0..w`, store the
column depth into slot `x` of the depth buffer (`depth.cols[x] = ...`). -/
def render_walls_depth (l : Level) (p : Player) (w : ℕ) (d0 : List F) : List F :=
  (List.range w).foldl (fun d x => d.set x (column_depth l p w x)) d0

/-! ## Claim theorems -/

/-- C2: for every level whose backing grid has exactly `w*h` entries and every
integer pair `(x,y)`, `tile` returns `1` outside `[0,w)×[0,h)`, and inside it
reads `map[y*w + x]` with the index strictly below the grid length (so the
access is total and never panics). -/
theorem tile_total_and_in_bounds (l : Level)
    (hlen : l.map.length = (l.w * l.h).toNat) (x y : ℤ) :
    ((x < 0 ∨ y < 0 ∨ l.w ≤ x ∨ l.h ≤ y) → l.tile_opt x y = some 1) ∧
    (0 ≤ x → x < l.w → 0 ≤ y → y < l.h →
      (y * l.w + x).toNat < l.map.length ∧
      l.tile_opt x y = some (l.map.getD (y * l.w + x).toNat 0)) := by
  constructor
  · intro h
    simp [Level.tile_opt, h]
  · intro hx0 hxw hy0 hyh
    have hidx : y * l.w + x < l.w * l.h := by nlinarith
    have hidx0 : 0 ≤ y * l.w + x := by
      have : 0 ≤ y * l.w := mul_nonneg hy0 (by omega)
      omega
    have hlt : (y * l.w + x).toNat < l.map.length := by omega
    refine ⟨hlt, ?_⟩
    have hcond : ¬ (x < 0 ∨ y < 0 ∨ l.w ≤ x ∨ l.h ≤ y) := by omega
    unfold Level.tile_opt
    rw [if_neg hcond, List.get?_eq_getElem?, List.getElem?_eq_getElem hlt,
      List.getD_eq_getElem l.map 0 hlt]

/-- Witness for C2 at `level1`: an out-of-range query and an in-range query. -/
theorem tile_total_and_in_bounds_witness :
    level1.tile_opt 30 2 = some 1 ∧
    ((2 : ℤ) * level1.w + 9).toNat < level1.map.length ∧
    level1.tile_opt 9 2 = some (level1.map.getD ((2 : ℤ) * level1.w + 9).toNat 0) :=
  ⟨(tile_total_and_in_bounds level1 (by decide) 30 2).1 (by decide),
   (tile_total_and_in_bounds level1 (by decide) 9 2).2
     (by decide) (by decide) (by decide) (by decide)⟩

/-- Helper to evaluate `ratTrunc` on a concrete nonnegative rational. -/
theorem ratTrunc_eq_of_bounds (q : ℚ) (z : ℤ) (h0 : 0 ≤ q)
    (h1 : (z : ℚ) ≤ q) (h2 : q < z + 1) : ratTrunc q = z := by
  rw [ratTrunc_eq_floor q h0]
  exact Int.floor_eq_iff.mpr ⟨h1, h2⟩

/-- C3: `try_move` applies the two axes independently: X moves to `x+dx`
exactly when `(x+dx, y)` is not inside a wall, and then Y moves to `y+dy`
exactly when `(x', y+dy)` — with the possibly-updated `x'` — is not inside a
wall; a blocked X never prevents a valid Y motion. -/
theorem try_move_axis_independent (l : Level) (p : Player) (dx dy : ℚ) :
    (is_wall l (p.x + dx) p.y = false → (try_move l p dx dy).x = p.x + dx) ∧
    (is_wall l (p.x + dx) p.y = true → (try_move l p dx dy).x = p.x) ∧
    (is_wall l (try_move l p dx dy).x (p.y + dy) = false →
      (try_move l p dx dy).y = p.y + dy) ∧
    (is_wall l (try_move l p dx dy).x (p.y + dy) = true →
      (try_move l p dx dy).y = p.y) := by
  unfold try_move
  by_cases hx : is_wall l (p.x + dx) p.y = false <;>
    by_cases hy : is_wall l (if is_wall l (p.x + dx) p.y = false
        then { p with x := p.x + dx } else p).x (p.y + dy) = false <;>
    simp_all

/-- The spec scenario pose: player at `(5.0, 5.0)` (level 1 has a wall at
grid cell `(6,5)`). -/
def playerC3 : Player :=
  ⟨5, 5, -1, 0, 0, 66 / 100, 3, 2⟩

theorem is_wall_eval_blocked : is_wall level1 (playerC3.x + 12 / 10) playerC3.y = true := by
  have h1 : ratTrunc (5 + 12 / 10 : ℚ) = 6 :=
    ratTrunc_eq_of_bounds _ 6 (by norm_num) (by norm_num) (by norm_num)
  have h2 : ratTrunc (5 : ℚ) = 5 :=
    ratTrunc_eq_of_bounds _ 5 (by norm_num) (by norm_num) (by norm_num)
  have h3 : level1.tile 6 5 = 2 := by decide
  simp only [playerC3, is_wall, h1, h2, h3]
  norm_num

theorem is_wall_eval_open : is_wall level1 playerC3.x (playerC3.y + -(12 / 10)) = false := by
  have h1 : ratTrunc (5 : ℚ) = 5 :=
    ratTrunc_eq_of_bounds _ 5 (by norm_num) (by norm_num) (by norm_num)
  have h2 : ratTrunc (5 + -(12 / 10) : ℚ) = 3 :=
    ratTrunc_eq_of_bounds _ 3 (by norm_num) (by norm_num) (by norm_num)
  have h3 : level1.tile 5 3 = 0 := by decide
  simp only [playerC3, is_wall, h1, h2, h3]
  norm_num
  decide

/-- Witness for C3, the spec scenario: `+1.2` in X is blocked by the wall at
`(6,5)` while the simultaneous `-1.2` in Y still applies. -/
theorem try_move_axis_independent_witness :
    (try_move level1 playerC3 (12 / 10) (-(12 / 10))).x = playerC3.x ∧
    (try_move level1 playerC3 (12 / 10) (-(12 / 10))).y = playerC3.y + -(12 / 10) := by
  have h := try_move_axis_independent level1 playerC3 (12 / 10) (-(12 / 10))
  have hx := h.2.1 is_wall_eval_blocked
  refine ⟨hx, h.2.2.1 ?_⟩
  rw [hx]
  exact is_wall_eval_open

/-- C1 failing input: `Playing`, one Pellet exactly at the player, counter 1. -/
def gameC1 : Game :=
  { mode := Mode.Playing, level_index := 0, level := level1,
    player := ⟨3 / 2, 3 / 2, -1, 0, 0, 66 / 100, 3, 2⟩,
    pressed := fun _ => false, fps := 0, fps_acc := 0, fps_count := 0,
    sprites := [Sprite.new (3 / 2) (3 / 2) SpriteKind.Pellet],
    pellets_remaining := 1, mouse_sensitivity := 35 / 10000, lives := 3,
    invincible_time := 0, time := 0, death_anim_t := 0, total_pellets := 1,
    sfx := [], music := none }

/-- C1: the pellet inside the pickup radius is removed from the registry, but
because the source reads `collected_indices.len()` *after* `drain(..)` has
emptied the vector, `pellets_remaining` is not decremented (stays 1) and no
pickup sound is fired — contradicting the spec'd decrement-and-sound. -/
theorem pickup_collection_drain_bug :
    (check_collisions_and_pickups gameC1).sprites = [] ∧
    (check_collisions_and_pickups gameC1).pellets_remaining = 1 ∧
    (check_collisions_and_pickups gameC1).sfx = [] := by
  have hd : ((3 / 2 : ℚ) - 3 / 2) * ((3 / 2 : ℚ) - 3 / 2) +
      ((3 / 2 : ℚ) - 3 / 2) * ((3 / 2 : ℚ) - 3 / 2) < pickup_r2 := by
    norm_num [pickup_r2]
  have hidx : collected_pellet_indices gameC1 = [0] := by
    simp [collected_pellet_indices, gameC1, Sprite.new, List.filter_cons,
      decide_eq_true hd]
    norm_num [pickup_r2]
  have hpick : pickup_phase gameC1 = { gameC1 with sprites := [] } := by
    rw [pickup_phase, hidx]
    simp [sort_indices, gameC1]
  rw [check_collisions_and_pickups, hpick]
  simp [hazard_phase, ghost_hit, gameC1]

/-- Pellet positions of a sprite collection (order preserved). -/
def pellet_positions (ss : List Sprite) : List (ℚ × ℚ) :=
  (ss.filter (fun s => s.kind == SpriteKind.Pellet)).map (fun s => (s.x, s.y))

/-- C4 counterexample level: 3×3 grid whose only traversable cells are the
spawn `(0,0)` and the border cells `(1,0)`, `(0,1)`; the interior cell `(1,1)`
is a wall, so the secondary scan (which only visits the interior) finds
nothing. -/
def levelC4 : Level := ⟨3, 3, [0, 0, 1, 0, 1, 1, 1, 1, 1], (0, 0), 0⟩

/-- C4 counterexample: `levelC4` has the traversable non-spawn cell `(1,0)`
(and a well-formed `w*h` grid), yet `build_sprites_for_level` places **zero**
pickups, because the force-place scan only visits interior cells — refuting
"the built sprite collection always contains at least one Pickup" and
"force-place ... on the first traversable non-spawn cell". -/
theorem build_sprites_no_pickup_counterexample :
    pellet_positions (build_sprites_for_level levelC4 []) = [] ∧
    levelC4.cell 1 0 = 0 ∧ ((1 : ℤ), (0 : ℤ)) ≠ levelC4.spawn ∧
    levelC4.map.length = (levelC4.w * levelC4.h).toNat := by
  refine ⟨?_, by decide, by decide, by decide⟩
  have hpat : pattern_cells levelC4 = [] := by decide
  have hscan : interior_scan levelC4 = none := by decide
  simp [pellet_positions, build_sprites_for_level, hpat, hscan]

/-- C4 (amended): the first scan places pickups on exactly the pattern cells
(traversable, non-spawn, `(x + y*3) % 6 == 0`), in row-major order; when the
pattern set is empty, exactly the result of the interior secondary scan is
force-placed (one pickup if it finds an interior traversable non-spawn cell,
none otherwise), and a cell returned by the secondary scan is always
traversable and distinct from the spawn. -/
theorem build_sprites_pellets_characterization (l : Level) (ghosts : List Sprite)
    (hg : ∀ s ∈ ghosts, s.kind = SpriteKind.Ghost) :
    (pattern_cells l ≠ [] →
      pellet_positions (build_sprites_for_level l ghosts) =
        (pattern_cells l).map (fun c => ((c.1 : ℚ) + 1 / 2, (c.2 : ℚ) + 1 / 2))) ∧
    (pattern_cells l = [] →
      pellet_positions (build_sprites_for_level l ghosts) =
        ((interior_scan l).toList).map (fun c => ((c.1 : ℚ) + 1 / 2, (c.2 : ℚ) + 1 / 2))) ∧
    (∀ c, interior_scan l = some c → l.cell c.1 c.2 = 0 ∧ c ≠ l.spawn) := by
  have hghost : (ghosts.filter (fun s => s.kind == SpriteKind.Pellet)) = [] := by
    rw [List.filter_eq_nil_iff]
    intro s hs
    simp [hg s hs]

  refine ⟨?_, ?_, ?_⟩
  · intro hne
    have hany : ((pattern_cells l).map (fun c =>
        Sprite.new ((c.1 : ℚ) + 1 / 2) ((c.2 : ℚ) + 1 / 2) SpriteKind.Pellet)).any
        (fun s => s.kind == SpriteKind.Pellet) = true := by
      obtain ⟨c0, cs, hcs⟩ := List.exists_cons_of_ne_nil hne
      rw [hcs]
      simp [Sprite.new]
    simp only [build_sprites_for_level, pellet_positions, hany, if_true]
    rw [List.filter_append, hghost, List.append_nil, List.filter_eq_self.mpr,
      List.map_map]
    · rfl
    · intro s hs
      obtain ⟨c, _, hc⟩ := List.mem_map.mp hs
      rw [← hc]
      rfl
  · intro heq
    unfold build_sprites_for_level
    rw [heq]
    simp only [List.map_nil, List.any_nil, Bool.false_eq_true, if_false]
    cases hscan : interior_scan l with
    | none => simp [pellet_positions, hghost]
    | some c =>
      simp only [List.nil_append, Option.toList]
      unfold pellet_positions
      rw [List.filter_append, hghost, List.append_nil]
      simp [Sprite.new]
  · intro c hc
    have := List.find?_some hc
    simpa using this

/-- Witness for the amended C4 theorem at the counterexample level (empty
pattern set, ghost list empty): the pellet set is exactly what the interior
scan yields — here nothing. -/
theorem build_sprites_pellets_characterization_witness :
    pellet_positions (build_sprites_for_level levelC4 []) =
      ((interior_scan levelC4).toList).map (fun c => ((c.1 : ℚ) + 1 / 2, (c.2 : ℚ) + 1 / 2)) :=
  (build_sprites_pellets_characterization levelC4 [] (by simp)).2.1 (by decide)

/-! ## DDA totality and characterization (C5, C6, C7) -/

theorem dda_advance_step_x (s : DdaSt) : (dda_advance s).step_x = s.step_x := by
  unfold dda_advance; split <;> rfl

theorem dda_advance_step_y (s : DdaSt) : (dda_advance s).step_y = s.step_y := by
  unfold dda_advance; split <;> rfl

/-- While the walk stays inside the grid, each iteration strictly decreases
the combined distance-to-exit measure. -/
theorem dda_measure_decrease (l : Level) (s : DdaSt)
    (hsx : s.step_x = 1 ∨ s.step_x = -1) (hsy : s.step_y = 1 ∨ s.step_y = -1)
    (hin : ¬ ((dda_advance s).map_x < 0 ∨ (dda_advance s).map_y < 0 ∨
      l.w ≤ (dda_advance s).map_x ∨ l.h ≤ (dda_advance s).map_y)) :
    dda_measure l (dda_advance s) < dda_measure l s := by
  unfold dda_advance at hin ⊢
  split at hin <;>
    [skip; skip] <;>
    · split
      all_goals (
        simp only at hin ⊢
        unfold dda_measure axis_measure
        rcases hsx with h1 | h1 <;> rcases hsy with h2 | h2 <;>
          simp only [h1, h2] at hin ⊢ <;> simp at hin ⊢ <;> omega)

/-- Fuel adequacy: with more fuel than the measure, the walk returns. -/
theorem dda_run_total (l : Level) : ∀ (n : ℕ) (s : DdaSt),
    s.step_x = 1 ∨ s.step_x = -1 → s.step_y = 1 ∨ s.step_y = -1 →
    dda_measure l s < n → (dda_run l n s).isSome = true := by
  intro n
  induction n with
  | zero => intro s _ _ hm; exact absurd hm (Nat.not_lt_zero _)
  | succ n ih =>
    intro s hsx hsy hm
    simp only [dda_run]
    by_cases hoob : (dda_advance s).map_x < 0 ∨ (dda_advance s).map_y < 0 ∨
        l.w ≤ (dda_advance s).map_x ∨ l.h ≤ (dda_advance s).map_y
    · simp [hoob]
    · by_cases htile : 0 < l.tile (dda_advance s).map_x (dda_advance s).map_y
      · simp [hoob, htile]
      · simp only [hoob, htile, if_false]
        apply ih
        · rw [dda_advance_step_x]; exact hsx
        · rw [dda_advance_step_y]; exact hsy
        · have := dda_measure_decrease l s hsx hsy hoob
          omega

/-- Whenever the walk returns, it returned either because the cell index left
`[0,w)×[0,h)` (no hit) or at a cell with positive tile id. -/
theorem dda_run_spec (l : Level) : ∀ (n : ℕ) (s : DdaSt) (r : DdaRes),
    dda_run l n s = some r →
    (r.hit = none ∧ (r.st.map_x < 0 ∨ r.st.map_y < 0 ∨
      l.w ≤ r.st.map_x ∨ l.h ≤ r.st.map_y)) ∨
    (∃ t, r.hit = some t ∧ 0 < t ∧ t = l.tile r.st.map_x r.st.map_y) := by
  intro n
  induction n with
  | zero => intro s r h; simp [dda_run] at h
  | succ n ih =>
    intro s r h
    simp only [dda_run] at h
    by_cases hoob : (dda_advance s).map_x < 0 ∨ (dda_advance s).map_y < 0 ∨
        l.w ≤ (dda_advance s).map_x ∨ l.h ≤ (dda_advance s).map_y
    · simp only [hoob, if_true, Option.some.injEq] at h
      subst h
      exact Or.inl ⟨rfl, hoob⟩
    · by_cases htile : 0 < l.tile (dda_advance s).map_x (dda_advance s).map_y
      · simp only [hoob, htile, if_true, if_false, Option.some.injEq] at h
        subst h
        exact Or.inr ⟨_, rfl, htile, rfl⟩
      · simp only [hoob, htile, if_false] at h
        exact ih _ r h

theorem dda_init_step_x (px py rdx rdy : ℚ) :
    (dda_init px py rdx rdy).step_x = 1 ∨ (dda_init px py rdx rdy).step_x = -1 := by
  unfold dda_init; by_cases h : rdx < 0 <;> simp [h]

theorem dda_init_step_y (px py rdx rdy : ℚ) :
    (dda_init px py rdx rdy).step_y = 1 ∨ (dda_init px py rdx rdy).step_y = -1 := by
  unfold dda_init; by_cases h : rdy < 0 <;> simp [h]

/-- C7: for every in-grid player position and every ray direction (parallel
rays included) the `while hit == 0` walk terminates: some finite fuel makes
it return, and it returns either at a wall (positive tile id) or having left
`[0,w)×[0,h)`. -/
theorem dda_walk_terminates (l : Level) (p : Player) (rdx rdy : ℚ)
    (_hx0 : 0 ≤ p.x) (_hxw : p.x < (l.w : ℚ)) (_hy0 : 0 ≤ p.y) (_hyh : p.y < (l.h : ℚ)) :
    ∃ (n : ℕ) (r : DdaRes),
      dda_run l n (dda_init p.x p.y rdx rdy) = some r ∧
      ((r.hit = none ∧ (r.st.map_x < 0 ∨ r.st.map_y < 0 ∨
          l.w ≤ r.st.map_x ∨ l.h ≤ r.st.map_y)) ∨
       (∃ t, r.hit = some t ∧ 0 < t ∧ t = l.tile r.st.map_x r.st.map_y)) := by
  obtain ⟨r, hr⟩ := Option.isSome_iff_exists.mp
    (dda_run_total l (dda_measure l (dda_init p.x p.y rdx rdy) + 1) _
      (dda_init_step_x p.x p.y rdx rdy) (dda_init_step_y p.x p.y rdx rdy)
      (Nat.lt_succ_self _))
  exact ⟨_, r, hr, dda_run_spec l _ _ r hr⟩

/-- Witness for C7 at level 1, player `(3/2, 3/2)`, ray `(-1, -66/100)`. -/
theorem dda_walk_terminates_witness :
    ∃ (n : ℕ) (r : DdaRes),
      dda_run level1 n (dda_init (3 / 2) (3 / 2) (-1) (-(66 / 100))) = some r ∧
      ((r.hit = none ∧ (r.st.map_x < 0 ∨ r.st.map_y < 0 ∨
          level1.w ≤ r.st.map_x ∨ level1.h ≤ r.st.map_y)) ∨
       (∃ t, r.hit = some t ∧ 0 < t ∧ t = level1.tile r.st.map_x r.st.map_y)) := by
  have h := dda_walk_terminates level1
    ⟨3 / 2, 3 / 2, -1, 0, 0, 66 / 100, 3, 2⟩ (-1) (-(66 / 100))
    (by norm_num) (by rw [show level1.w = 24 from by decide]; norm_num)
    (by norm_num) (by rw [show level1.h = 16 from by decide]; norm_num)
  exact h

/-! ### Frozen-axis invariants for rays parallel to an axis (C6) -/

theorem F_blt_inf_left (z : F) : F.blt F.inf z = false := by cases z <;> rfl

theorem F_blt_fin_inf (q : ℚ) : F.blt (F.fin q) F.inf = true := rfl

/-- Values that are an infinity-or-finite (never NaN, never `-inf`). -/
def finOrInf (v : F) : Prop := v = F.inf ∨ ∃ q, v = F.fin q

theorem F_add_finOrInf {a b : F} (ha : finOrInf a) (hb : finOrInf b) :
    finOrInf (F.add a b) := by
  rcases ha with h | ⟨q, h⟩ <;> rcases hb with h2 | ⟨q2, h2⟩ <;> subst h <;> subst h2
  · exact Or.inl rfl
  · exact Or.inl rfl
  · exact Or.inl rfl
  · exact Or.inr ⟨q + q2, rfl⟩

/-- Invariant while `ray_dir_x == 0`: the X side distance is pinned at
infinity, the X cell index never moves, and the Y side/delta distances stay
NaN-free. -/
def XFrozen (m : ℤ) (s : DdaSt) : Prop :=
  s.side_dist_x = F.inf ∧ s.map_x = m ∧ finOrInf s.side_dist_y ∧ finOrInf s.delta_dist_y

theorem XFrozen_advance (m : ℤ) (s : DdaSt) (h : XFrozen m s) :
    XFrozen m (dda_advance s) := by
  obtain ⟨h1, h2, h3, h4⟩ := h
  unfold dda_advance
  rw [h1, F_blt_inf_left]
  simp only [Bool.false_eq_true, if_false]
  exact ⟨rfl, h2, F_add_finOrInf h3 h4, h4⟩

theorem dda_run_xfrozen (l : Level) (m : ℤ) : ∀ (n : ℕ) (s : DdaSt) (r : DdaRes),
    XFrozen m s → dda_run l n s = some r → XFrozen m r.st := by
  intro n
  induction n with
  | zero => intro s r _ h; simp [dda_run] at h
  | succ n ih =>
    intro s r hX h
    simp only [dda_run] at h
    by_cases hoob : (dda_advance s).map_x < 0 ∨ (dda_advance s).map_y < 0 ∨
        l.w ≤ (dda_advance s).map_x ∨ l.h ≤ (dda_advance s).map_y
    · simp only [hoob, if_true, Option.some.injEq] at h
      subst h
      exact XFrozen_advance m s hX
    · by_cases htile : 0 < l.tile (dda_advance s).map_x (dda_advance s).map_y
      · simp only [hoob, htile, if_true, if_false, Option.some.injEq] at h
        subst h
        exact XFrozen_advance m s hX
      · simp only [hoob, htile, if_false] at h
        exact ih _ r (XFrozen_advance m s hX) h

/-- Invariant while `ray_dir_y == 0` and `ray_dir_x ≠ 0`: the Y side distance
is pinned at infinity, the Y cell index never moves, and the X side/delta
distances stay finite. -/
def YFrozen (m : ℤ) (s : DdaSt) : Prop :=
  s.side_dist_y = F.inf ∧ s.map_y = m ∧
  (∃ q, s.side_dist_x = F.fin q) ∧ (∃ q, s.delta_dist_x = F.fin q)

theorem YFrozen_advance (m : ℤ) (s : DdaSt) (h : YFrozen m s) :
    YFrozen m (dda_advance s) := by
  obtain ⟨h1, h2, ⟨q, h3⟩, ⟨q2, h4⟩⟩ := h
  unfold dda_advance
  rw [h1, h3, F_blt_fin_inf]
  simp only [if_true]
  exact ⟨rfl, h2, ⟨q + q2, by rw [h4]; rfl⟩, ⟨q2, h4⟩⟩

theorem dda_run_yfrozen (l : Level) (m : ℤ) : ∀ (n : ℕ) (s : DdaSt) (r : DdaRes),
    YFrozen m s → dda_run l n s = some r → YFrozen m r.st := by
  intro n
  induction n with
  | zero => intro s r _ h; simp [dda_run] at h
  | succ n ih =>
    intro s r hY h
    simp only [dda_run] at h
    by_cases hoob : (dda_advance s).map_x < 0 ∨ (dda_advance s).map_y < 0 ∨
        l.w ≤ (dda_advance s).map_x ∨ l.h ≤ (dda_advance s).map_y
    · simp only [hoob, if_true, Option.some.injEq] at h
      subst h
      exact YFrozen_advance m s hY
    · by_cases htile : 0 < l.tile (dda_advance s).map_x (dda_advance s).map_y
      · simp only [hoob, htile, if_true, if_false, Option.some.injEq] at h
        subst h
        exact YFrozen_advance m s hY
      · simp only [hoob, htile, if_false] at h
        exact ih _ r (YFrozen_advance m s hY) h

theorem dda_init_sdx_inf (px py rdy : ℚ) :
    (dda_init px py 0 rdy).side_dist_x = F.inf := by
  unfold dda_init delta_dist
  have hfrac : (0 : ℚ) < (ratTrunc px : ℚ) + 1 - px := by
    have := ratTrunc_gt px
    linarith
  simp [F.mul, lt_irrefl, hfrac, hfrac.ne']

theorem dda_init_sdy_inf (px py rdx : ℚ) :
    (dda_init px py rdx 0).side_dist_y = F.inf := by
  unfold dda_init delta_dist
  have hfrac : (0 : ℚ) < (ratTrunc py : ℚ) + 1 - py := by
    have := ratTrunc_gt py
    linarith
  simp [F.mul, lt_irrefl, hfrac, hfrac.ne']

theorem dda_init_sdy_finOrInf (px py rdx rdy : ℚ) :
    finOrInf (dda_init px py rdx rdy).side_dist_y ∧
    finOrInf (dda_init px py rdx rdy).delta_dist_y := by
  by_cases h0 : rdy = 0
  · subst h0
    refine ⟨Or.inl (dda_init_sdy_inf px py rdx), Or.inl ?_⟩
    unfold dda_init delta_dist
    simp
  · unfold dda_init delta_dist
    by_cases hneg : rdy < 0 <;> simp [h0, hneg, F.mul, finOrInf]

theorem dda_init_sdx_fin (px py rdx rdy : ℚ) (h0 : rdx ≠ 0) :
    (∃ q, (dda_init px py rdx rdy).side_dist_x = F.fin q) ∧
    (∃ q, (dda_init px py rdx rdy).delta_dist_x = F.fin q) := by
  unfold dda_init delta_dist
  by_cases hneg : rdx < 0 <;> simp [h0, hneg, F.mul]

/-- C6 (amended): a ray component that is exactly zero gets an infinite
delta-distance and an infinite initial side-distance on that axis, and the
walk never produces a NaN side-distance; the zero axis is never advanced —
for the X axis this holds unconditionally, for the Y axis it holds whenever
the X component is nonzero (for the degenerate ray `(0,0)` the non-strict
tie-break advances Y; see the counterexample). -/
theorem dda_zero_axis_amended (l : Level) (px py rdx rdy : ℚ) :
    (rdx = 0 →
      (dda_init px py rdx rdy).delta_dist_x = F.inf ∧
      (dda_init px py rdx rdy).side_dist_x = F.inf ∧
      (∀ (n : ℕ) (r : DdaRes), dda_run l n (dda_init px py rdx rdy) = some r →
        r.st.map_x = (dda_init px py rdx rdy).map_x ∧
        r.st.side_dist_x ≠ F.nan ∧ r.st.side_dist_y ≠ F.nan)) ∧
    (rdy = 0 → rdx ≠ 0 →
      (dda_init px py rdx rdy).delta_dist_y = F.inf ∧
      (dda_init px py rdx rdy).side_dist_y = F.inf ∧
      (∀ (n : ℕ) (r : DdaRes), dda_run l n (dda_init px py rdx rdy) = some r →
        r.st.map_y = (dda_init px py rdx rdy).map_y ∧
        r.st.side_dist_x ≠ F.nan ∧ r.st.side_dist_y ≠ F.nan)) := by
  constructor
  · intro h0
    subst h0
    have hdx : (dda_init px py 0 rdy).delta_dist_x = F.inf := by
      unfold dda_init delta_dist
      simp
    have hX : XFrozen (dda_init px py 0 rdy).map_x (dda_init px py 0 rdy) :=
      ⟨dda_init_sdx_inf px py rdy, rfl, (dda_init_sdy_finOrInf px py 0 rdy).1,
        (dda_init_sdy_finOrInf px py 0 rdy).2⟩
    refine ⟨hdx, hX.1, fun n r hr => ?_⟩
    obtain ⟨h1, h2, h3, _⟩ := dda_run_xfrozen l _ n _ r hX hr
    refine ⟨h2, by rw [h1]; intro hc; exact F.noConfusion hc, ?_⟩
    rcases h3 with h3 | ⟨q, h3⟩ <;> rw [h3] <;> intro hc <;> exact F.noConfusion hc
  · intro h0 hx0
    subst h0
    have hdy : (dda_init px py rdx 0).delta_dist_y = F.inf := by
      unfold dda_init delta_dist
      simp
    have hY : YFrozen (dda_init px py rdx 0).map_y (dda_init px py rdx 0) :=
      ⟨dda_init_sdy_inf px py rdx, rfl, (dda_init_sdx_fin px py rdx 0 hx0).1,
        (dda_init_sdx_fin px py rdx 0 hx0).2⟩
    refine ⟨hdy, hY.1, fun n r hr => ?_⟩
    obtain ⟨h1, h2, ⟨q, h3⟩, _⟩ := dda_run_yfrozen l _ n _ r hY hr
    refine ⟨h2, by rw [h3]; intro hc; exact F.noConfusion hc,
      by rw [h1]; intro hc; exact F.noConfusion hc⟩

/-- C6 counterexample: for the degenerate ray `(0, 0)` from `(8.0, 2.0)` in
level 1 (both side distances infinite), the non-strict comparison falls into
the else branch and the walk advances the Y cell index even though
`ray_dir_y == 0`, refuting "never advances the cell index on that axis" as
universally stated. -/
theorem dda_zero_ray_advances_y_counterexample :
    dda_run level1 1 (dda_init 8 2 0 0) =
      some ⟨some 4, ⟨8, 3, 1, 1, F.inf, F.inf, F.inf, F.inf, 1⟩⟩ ∧
    (⟨8, 3, 1, 1, F.inf, F.inf, F.inf, F.inf, 1⟩ : DdaSt).map_y ≠
      (dda_init 8 2 0 0).map_y ∧
    (dda_init 8 2 0 0).delta_dist_y = F.inf := by
  have tx : ratTrunc (8 : ℚ) = 8 :=
    ratTrunc_eq_of_bounds _ 8 (by norm_num) (by norm_num) (by norm_num)
  have ty : ratTrunc (2 : ℚ) = 2 :=
    ratTrunc_eq_of_bounds _ 2 (by norm_num) (by norm_num) (by norm_num)
  have h0 : dda_init 8 2 0 0 = ⟨8, 2, 1, 1, F.inf, F.inf, F.inf, F.inf, 0⟩ := by
    unfold dda_init delta_dist
    rw [tx, ty]
    norm_num [F.mul]
  refine ⟨?_, ?_, ?_⟩
  · rw [h0]
    have ht : level1.tile 8 3 = 4 := by decide
    simp only [dda_run, dda_advance, F_blt_inf_left, Bool.false_eq_true, if_false]
    norm_num [F.add, ht]
    decide
  · rw [h0]
    decide
  · rw [h0]

/-- Witness for the amended C6 theorem: ray `(0, -1)` from `(8.0, 2.0)` in
level 1; the walk hits the border after two Y steps with the X index pinned. -/
theorem dda_zero_axis_amended_witness :
    (dda_init 8 2 0 (-1)).delta_dist_x = F.inf ∧
    (⟨some 1, ⟨8, 0, 1, -1, F.inf, F.fin 2, F.inf, F.fin 1, 1⟩⟩ : DdaRes).st.map_x =
      (dda_init 8 2 0 (-1)).map_x := by
  have tx : ratTrunc (8 : ℚ) = 8 :=
    ratTrunc_eq_of_bounds _ 8 (by norm_num) (by norm_num) (by norm_num)
  have ty : ratTrunc (2 : ℚ) = 2 :=
    ratTrunc_eq_of_bounds _ 2 (by norm_num) (by norm_num) (by norm_num)
  have h0 : dda_init 8 2 0 (-1) = ⟨8, 2, 1, -1, F.inf, F.fin 0, F.inf, F.fin 1, 0⟩ := by
    unfold dda_init delta_dist
    rw [tx, ty]
    norm_num [F.mul]
  have ht1 : level1.tile 8 1 = 0 := by decide
  have ht0 : level1.tile 8 0 = 1 := by decide
  have hrun : dda_run level1 2 (dda_init 8 2 0 (-1)) =
      some ⟨some 1, ⟨8, 0, 1, -1, F.inf, F.fin 2, F.inf, F.fin 1, 1⟩⟩ := by
    rw [h0]
    simp only [dda_run, dda_advance]
    norm_num [F.blt, F.add, ht1, ht0]
    decide
  have h := (dda_zero_axis_amended level1 8 2 0 (-1)).1 rfl
  exact ⟨h.1, (h.2.2 2 _ hrun).1⟩

/-! ### The depth buffer is fully written every frame (C5) -/

theorem fold_set_length (f : ℕ → F) : ∀ (xs : List ℕ) (d : List F),
    (xs.foldl (fun d x => d.set x (f x)) d).length = d.length := by
  intro xs
  induction xs with
  | nil => intro d; rfl
  | cons x xs ih => intro d; rw [List.foldl_cons, ih, List.length_set]

/-- After the column loop, every slot `x < w` holds the value computed for
column `x`. -/
theorem fold_set_range_get (f : ℕ → F) : ∀ (w : ℕ) (d : List F) (x : ℕ),
    x < w → w ≤ d.length →
    ((List.range w).foldl (fun d i => d.set i (f i)) d)[x]? = some (f x) := by
  intro w
  induction w with
  | zero => intro d x hx _; exact absurd hx (Nat.not_lt_zero _)
  | succ n ih =>
    intro d x hx hlen
    rw [List.range_succ, List.foldl_append, List.foldl_cons, List.foldl_nil]
    by_cases hxn : x = n
    · subst hxn
      exact List.getElem?_set_eq_of_lt _ (by rw [fold_set_length]; omega)
    · rw [List.getElem?_set_ne (fun hc => hxn hc.symm)]
      exact ih d x (by omega) (by omega)

/-- C5: provided the depth buffer has exactly one slot per screen column,
after the wall pass every column's entry has been overwritten with that
column's depth: the clamped `|perp|.max(1e-4)` of the finished walk, which is
the `1e6` sentinel whenever the ray left the grid without a hit — no entry is
left unset. -/
theorem depth_buffer_fully_written (l : Level) (p : Player) (w : ℕ) (d0 : List F)
    (hlen : d0.length = w) (x : ℕ) (hx : x < w) :
    (render_walls_depth l p w d0)[x]? = some (column_depth l p w x) ∧
    (∃ r, dda_run l
        (dda_measure l (dda_init p.x p.y (column_ray p w x).1 (column_ray p w x).2) + 1)
        (dda_init p.x p.y (column_ray p w x).1 (column_ray p w x).2) = some r ∧
      column_depth l p w x =
        F.fmax (F.abs (perp_raw p.x p.y (column_ray p w x).1 (column_ray p w x).2 r))
          (F.fin (1 / 10000)) ∧
      (r.hit = none → column_depth l p w x = F.fin 1000000)) := by
  constructor
  · exact fold_set_range_get _ w d0 x hx (by omega)
  · obtain ⟨r, hr⟩ := Option.isSome_iff_exists.mp
      (dda_run_total l
        (dda_measure l (dda_init p.x p.y (column_ray p w x).1 (column_ray p w x).2) + 1)
        (dda_init p.x p.y (column_ray p w x).1 (column_ray p w x).2)
        (dda_init_step_x _ _ _ _) (dda_init_step_y _ _ _ _) (Nat.lt_succ_self _))
    have hcd : column_depth l p w x =
        F.fmax (F.abs (perp_raw p.x p.y (column_ray p w x).1 (column_ray p w x).2 r))
          (F.fin (1 / 10000)) := by
      unfold column_depth
      rw [hr, Option.map_some', Option.getD_some]
    refine ⟨r, hr, hcd, fun hnone => ?_⟩
    rw [hcd]
    simp only [perp_raw, hnone]
    show F.fmax (F.fin |1000000|) (F.fin (1 / 10000)) = F.fin 1000000
    norm_num [F.fmax]

/-- Witness for C5: a one-column buffer over level 1. -/
theorem depth_buffer_fully_written_witness :
    (render_walls_depth level1 ⟨3 / 2, 3 / 2, -1, 0, 0, 66 / 100, 3, 2⟩ 1 [F.fin 0])[0]? =
      some (column_depth level1 ⟨3 / 2, 3 / 2, -1, 0, 0, 66 / 100, 3, 2⟩ 1 0) :=
  (depth_buffer_fully_written level1 ⟨3 / 2, 3 / 2, -1, 0, 0, 66 / 100, 3, 2⟩ 1 [F.fin 0]
    (by simp) 0 (by norm_num)).1

/-! ### Invulnerability window (C8) -/

theorem fps_tick_mode (g : Game) (dt : ℚ) : (fps_tick g dt).mode = g.mode := by
  simp only [fps_tick]; split <;> rfl

theorem fps_tick_lives (g : Game) (dt : ℚ) : (fps_tick g dt).lives = g.lives := by
  simp only [fps_tick]; split <;> rfl

theorem fps_tick_invincible (g : Game) (dt : ℚ) :
    (fps_tick g dt).invincible_time = g.invincible_time := by
  simp only [fps_tick]; split <;> rfl

theorem fps_tick_pellets (g : Game) (dt : ℚ) :
    (fps_tick g dt).pellets_remaining = g.pellets_remaining := by
  simp only [fps_tick]; split <;> rfl

/-- The pickup phase never touches mode, lives, the invulnerability timer or
(because of the dead post-drain branch) the pellet counter. -/
theorem pickup_phase_fields (g : Game) :
    (pickup_phase g).mode = g.mode ∧ (pickup_phase g).lives = g.lives ∧
    (pickup_phase g).invincible_time = g.invincible_time ∧
    (pickup_phase g).pellets_remaining = g.pellets_remaining := by
  simp only [pickup_phase]
  split
  · exact ⟨rfl, rfl, rfl, rfl⟩
  · simp

/-- While the invulnerability window is open (or the mode is not `Playing`),
the hazard phase is the identity. -/
theorem hazard_phase_shielded (g : Game)
    (h : ¬ (g.invincible_time ≤ 0 ∧ g.mode = Mode.Playing)) : hazard_phase g = g := by
  unfold hazard_phase
  rw [if_neg h]

/-- The hazard phase can only ever keep lives or decrement them by one, and
it decrements only when not shielded, in `Playing`, with a ghost in radius. -/
theorem hazard_phase_cases (g : Game) :
    hazard_phase g = g ∨
    ((hazard_phase g).lives = g.lives - 1 ∧ g.invincible_time ≤ 0 ∧
      g.mode = Mode.Playing ∧ ghost_hit g = true ∧
      ((1 < g.lives ∧ (hazard_phase g).mode = Mode.Playing ∧
        (hazard_phase g).invincible_time = 2) ∨
       (g.lives ≤ 1 ∧ (hazard_phase g).mode = Mode.GameOver))) := by
  unfold hazard_phase
  by_cases hc : g.invincible_time ≤ 0 ∧ g.mode = Mode.Playing
  · rw [if_pos hc]
    by_cases hhit : ghost_hit g = true
    · rw [if_pos hhit]
      by_cases hl : 0 < g.lives - 1
      · rw [if_pos hl]
        exact Or.inr ⟨rfl, hc.1, hc.2, hhit, Or.inl ⟨by omega, hc.2, rfl⟩⟩
      · rw [if_neg hl]
        exact Or.inr ⟨rfl, hc.1, hc.2, hhit, Or.inr ⟨by omega, rfl⟩⟩
    · rw [if_neg hhit]
      exact Or.inl rfl
  · rw [if_neg hc]
    exact Or.inl rfl

/-- In `Playing`, `update` is `playing_frame` after the fps tick. -/
theorem update_eq_playing_frame (g : Game) (dt : ℚ) (pose : Player)
    (moved : List Sprite) (hm : g.mode = Mode.Playing) :
    update g dt pose moved = playing_frame (fps_tick g dt) dt pose moved := by
  have hmf : (fps_tick g dt).mode = Mode.Playing := by rw [fps_tick_mode, hm]
  simp only [update, hmf]

/-- The state `playing_frame` hands to `check_collisions_and_pickups`. -/
def pre_check (g : Game) (dt : ℚ) (pose : Player) (moved : List Sprite) : Game :=
  { g with
    time := g.time + dt,
    invincible_time :=
      if 0 < g.invincible_time then max (g.invincible_time - dt) 0
      else g.invincible_time,
    player := pose, sprites := moved }

theorem playing_frame_eq (g : Game) (dt : ℚ) (pose : Player) (moved : List Sprite) :
    playing_frame g dt pose moved =
      (if (check_collisions_and_pickups (pre_check g dt pose moved)).pellets_remaining = 0
       then { check_collisions_and_pickups (pre_check g dt pose moved) with
                mode := Mode.Win,
                sfx := (check_collisions_and_pickups (pre_check g dt pose moved)).sfx ++
                  ["assets/sfx/win.wav"] }
       else check_collisions_and_pickups (pre_check g dt pose moved)) := by
  simp only [playing_frame, pre_check]

/-- One `Playing` update with strictly more invulnerability time left than
the elapsed `dt` cannot touch lives; the timer decays by exactly `dt` and the
mode stays `Playing` (or reaches `Win`). -/
theorem update_playing_shielded (g : Game) (dt : ℚ) (pose : Player)
    (moved : List Sprite) (hm : g.mode = Mode.Playing)
    (hinv : 0 < g.invincible_time) (hdt : 0 < g.invincible_time - dt) :
    (update g dt pose moved).lives = g.lives ∧
    (update g dt pose moved).invincible_time = g.invincible_time - dt ∧
    ((update g dt pose moved).mode = Mode.Playing ∨
      (update g dt pose moved).mode = Mode.Win) := by
  rw [update_eq_playing_frame g dt pose moved hm, playing_frame_eq]
  set g2 : Game := pre_check (fps_tick g dt) dt pose moved with hg2
  have hg2inv : g2.invincible_time = g.invincible_time - dt := by
    rw [hg2]
    show (if 0 < (fps_tick g dt).invincible_time
      then max ((fps_tick g dt).invincible_time - dt) 0
      else (fps_tick g dt).invincible_time) = g.invincible_time - dt
    rw [fps_tick_invincible, if_pos hinv, max_eq_left (le_of_lt hdt)]
  have hg2mode : g2.mode = Mode.Playing := by
    rw [hg2]
    show (fps_tick g dt).mode = Mode.Playing
    rw [fps_tick_mode, hm]
  have hg2lives : g2.lives = g.lives := by
    rw [hg2]
    show (fps_tick g dt).lives = g.lives
    exact fps_tick_lives g dt
  have hp := pickup_phase_fields g2
  have hcheck : check_collisions_and_pickups g2 = pickup_phase g2 := by
    unfold check_collisions_and_pickups
    apply hazard_phase_shielded
    rw [hp.2.2.1, hg2inv]
    intro hcon
    exact absurd hcon.1 (not_le.mpr hdt)
  rw [hcheck]
  split
  · exact ⟨by rw [hp.2.1, hg2lives], by rw [hp.2.2.1, hg2inv], Or.inr rfl⟩
  · exact ⟨by rw [hp.2.1, hg2lives], by rw [hp.2.2.1, hg2inv],
      Or.inl (by rw [hp.1, hg2mode])⟩

/-- Any update in `Win` mode keeps every gameplay field (only fps fields
move). -/
theorem update_win_frozen (g : Game) (dt : ℚ) (pose : Player) (moved : List Sprite)
    (hm : g.mode = Mode.Win) :
    (update g dt pose moved).lives = g.lives ∧
    (update g dt pose moved).mode = Mode.Win := by
  have hmf : (fps_tick g dt).mode = Mode.Win := by rw [fps_tick_mode, hm]
  simp only [update, hmf]
  exact ⟨fps_tick_lives g dt, trivial⟩

/-- A frame sequence as fed by the host: per update, the elapsed time and the
two motion oracles. -/
def apply_updates (g : Game) (us : List (ℚ × Player × List Sprite)) : Game :=
  us.foldl (fun g u => update g u.1 u.2.1 u.2.2) g

theorem apply_updates_shielded : ∀ (us : List (ℚ × Player × List Sprite)) (g : Game),
    (∀ u ∈ us, 0 ≤ u.1) →
    (g.mode = Mode.Win ∨
      (g.mode = Mode.Playing ∧ 0 < g.invincible_time ∧
        (us.map Prod.fst).sum < g.invincible_time)) →
    (apply_updates g us).lives = g.lives := by
  intro us
  induction us with
  | nil => intro g _ _; rfl
  | cons u us ih =>
    intro g hdts hP
    have hrest : (0 : ℚ) ≤ (us.map Prod.fst).sum := by
      apply List.sum_nonneg
      intro q hq
      obtain ⟨v, hv, hveq⟩ := List.mem_map.mp hq
      rw [← hveq]
      exact hdts v (List.mem_cons_of_mem u hv)
    rw [apply_updates, List.foldl_cons]
    have hdts2 : ∀ v ∈ us, (0 : ℚ) ≤ v.1 :=
      fun v hv => hdts v (List.mem_cons_of_mem u hv)
    rcases hP with hwin | ⟨hm, hinv, hsum⟩
    · obtain ⟨hl, hmode⟩ := update_win_frozen g u.1 u.2.1 u.2.2 hwin
      have hrec := ih (update g u.1 u.2.1 u.2.2) hdts2 (Or.inl hmode)
      rw [apply_updates] at hrec
      rw [hrec, hl]
    · have hsum2 : u.1 + (us.map Prod.fst).sum < g.invincible_time := by
        simpa using hsum
      have hdt : 0 < g.invincible_time - u.1 := by linarith
      obtain ⟨hl, hinv2, hmode2⟩ := update_playing_shielded g u.1 u.2.1 u.2.2 hm hinv hdt
      rcases hmode2 with hmode2 | hmode2
      · have hrec := ih (update g u.1 u.2.1 u.2.2) hdts2
          (Or.inr ⟨hmode2, by rw [hinv2]; linarith, by rw [hinv2]; linarith⟩)
        rw [apply_updates] at hrec
        rw [hrec, hl]
      · have hrec := ih (update g u.1 u.2.1 u.2.2) hdts2 (Or.inl hmode2)
        rw [apply_updates] at hrec
        rw [hrec, hl]

/-- C8: (a) from any `Playing` state with an open invulnerability window, no
sequence of updates whose total `Playing` time stays below the remaining
window can change `lives` — the hazard check is shielded until the timer has
decayed to zero; (b) a non-fatal hazard hit (not shielded, `Playing`, a ghost
within radius, more than one life) sets the window to the fixed cooldown `2`,
costs exactly one life, and stays in `Playing`. -/
theorem invulnerability_window_blocks_second_hit :
    (∀ (g : Game) (us : List (ℚ × Player × List Sprite)),
      g.mode = Mode.Playing → 0 < g.invincible_time →
      (∀ u ∈ us, 0 ≤ u.1) → (us.map Prod.fst).sum < g.invincible_time →
      (apply_updates g us).lives = g.lives) ∧
    (∀ g : Game,
      g.mode = Mode.Playing → g.invincible_time ≤ 0 → 1 < g.lives →
      ghost_hit g = true →
      (hazard_phase g).invincible_time = 2 ∧
      (hazard_phase g).lives = g.lives - 1 ∧
      (hazard_phase g).mode = Mode.Playing) := by
  constructor
  · intro g us hm hinv hdts hsum
    exact apply_updates_shielded us g hdts (Or.inr ⟨hm, hinv, hsum⟩)
  · intro g hm hinv hl hhit
    unfold hazard_phase
    rw [if_pos ⟨hinv, hm⟩, if_pos hhit, if_pos (by omega : (0 : ℤ) < g.lives - 1)]
    exact ⟨rfl, rfl, hm⟩

/-- C8 witness states: one with an open 2-second window, one unshielded with
a ghost exactly at the player. -/
def gameC8a : Game :=
  { gameC1 with invincible_time := 2 }

def gameC8b : Game :=
  { gameC1 with sprites := [Sprite.new (3 / 2) (3 / 2) SpriteKind.Ghost] }

theorem invulnerability_window_witness :
    (apply_updates gameC8a [(1, ⟨3 / 2, 3 / 2, -1, 0, 0, 66 / 100, 3, 2⟩, [])]).lives =
      gameC8a.lives ∧
    (hazard_phase gameC8b).invincible_time = 2 ∧
    (hazard_phase gameC8b).lives = gameC8b.lives - 1 ∧
    (hazard_phase gameC8b).mode = Mode.Playing := by
  have hhit : ghost_hit gameC8b = true := by
    have hd : ((3 / 2 : ℚ) - 3 / 2) * ((3 / 2 : ℚ) - 3 / 2) +
        ((3 / 2 : ℚ) - 3 / 2) * ((3 / 2 : ℚ) - 3 / 2) < hit_r2 := by
      simp only [hit_r2]
      norm_num
    simp [ghost_hit, gameC8b, gameC1, Sprite.new, decide_eq_true hd]
    simp only [hit_r2]
    norm_num
  have hA := invulnerability_window_blocks_second_hit.1 gameC8a
    [(1, ⟨3 / 2, 3 / 2, -1, 0, 0, 66 / 100, 3, 2⟩, [])] rfl
    (by norm_num [gameC8a, gameC1])
    (by intro u hu; simp at hu; rw [hu]; norm_num)
    (by simp only [List.map_cons, List.map_nil, List.sum_cons, List.sum_nil]
        norm_num [gameC8a, gameC1])
  have hB := invulnerability_window_blocks_second_hit.2 gameC8b rfl
    (by norm_num [gameC8b, gameC1]) (by norm_num [gameC8b, gameC1]) hhit
  exact ⟨hA, hB.1, hB.2.1, hB.2.2⟩

/-! ### Level (re)start is a pure reset (C9) -/

/-- C9: for every level index, every prior state and every ghost-placement
outcome, `start_level` resets lives to 3, clears the invulnerability and
death-animation timers and the game clock, enters `Playing`, sets both pellet
counters to the number of Pellet entities in the just-rebuilt registry, and
puts the player at the level's spawn cell plus `(0.5, 0.5)` with the fixed
initial heading `(-1, 0)` and camera plane `(0, 0.66)`. -/
theorem start_level_pure_reset (g : Game) (index : ℕ) (ghosts : List Sprite) :
    (start_level g index ghosts).lives = 3 ∧
    (start_level g index ghosts).invincible_time = 0 ∧
    (start_level g index ghosts).time = 0 ∧
    (start_level g index ghosts).death_anim_t = 0 ∧
    (start_level g index ghosts).mode = Mode.Playing ∧
    (start_level g index ghosts).pellets_remaining =
      (start_level g index ghosts).total_pellets ∧
    (start_level g index ghosts).total_pellets =
      count_pellets (start_level g index ghosts).sprites ∧
    (start_level g index ghosts).player.x = ((get_level index).spawn.1 : ℚ) + 1 / 2 ∧
    (start_level g index ghosts).player.y = ((get_level index).spawn.2 : ℚ) + 1 / 2 ∧
    (start_level g index ghosts).player.dir_x = -1 ∧
    (start_level g index ghosts).player.dir_y = 0 ∧
    (start_level g index ghosts).player.plane_x = 0 ∧
    (start_level g index ghosts).player.plane_y = 66 / 100 ∧
    (start_level g index ghosts).level_index = index ∧
    (start_level g index ghosts).level = get_level index := by
  simp [start_level]

/-! ### Lives never go negative (C10) -/

/-- The inductive invariant: lives are never negative, and in the two
gameplay modes (`Playing`, and `Paused`, which is only entered from
`Playing`) at least one life remains. -/
def LivesInv (g : Game) : Prop :=
  0 ≤ g.lives ∧ ((g.mode = Mode.Playing ∨ g.mode = Mode.Paused) → 1 ≤ g.lives)

theorem start_level_lives_inv (g : Game) (i : ℕ) (ghosts : List Sprite) :
    LivesInv (start_level g i ghosts) :=
  ⟨by simp [start_level], fun _ => by simp [start_level]⟩

theorem on_key_lives_inv (g : Game) (k : Key) (pr : Bool) (ghosts : List Sprite)
    (h : LivesInv g) : LivesInv (on_key g k pr ghosts) := by
  obtain ⟨h0, h1⟩ := h
  cases hm : g.mode <;> cases pr <;> cases k <;>
    simp only [on_key.eq_def, hm] <;>
    first
    | exact start_level_lives_inv _ _ ghosts
    | exact ⟨h0, fun _ => h1 (Or.inl hm)⟩
    | exact ⟨h0, fun _ => h1 (Or.inr hm)⟩
    | exact ⟨h0, by simp [hm]⟩

theorem on_mouse_delta_lives_inv (g : Game) (d1 d2 p1 p2 : ℚ)
    (h : LivesInv g) : LivesInv (on_mouse_delta g d1 d2 p1 p2) := by
  obtain ⟨h0, h1⟩ := h
  unfold on_mouse_delta
  split
  · exact ⟨h0, h1⟩
  · exact ⟨h0, h1⟩

/-- The collision/pickup resolution keeps lives nonnegative from a `Playing`
state with at least one life: a hazard hit costs one life and either keeps
`Playing` (when lives remain) or moves to `GameOver`. -/
theorem check_lives_inv (g : Game) (_hm : g.mode = Mode.Playing)
    (hl : 1 ≤ g.lives) :
    0 ≤ (check_collisions_and_pickups g).lives ∧
    (((check_collisions_and_pickups g).mode = Mode.Playing ∨
       (check_collisions_and_pickups g).mode = Mode.Paused) →
      1 ≤ (check_collisions_and_pickups g).lives) := by
  have hp := pickup_phase_fields g
  unfold check_collisions_and_pickups
  rcases hazard_phase_cases (pickup_phase g) with hid | ⟨hdec, _, _, _, hsub⟩
  · rw [hid, hp.2.1]
    exact ⟨by omega, fun _ => hl⟩
  · rw [hdec, hp.2.1]
    rcases hsub with ⟨hgt, _, _⟩ | ⟨_, hmode⟩
    · rw [hp.2.1] at hgt
      exact ⟨by omega, fun _ => by omega⟩
    · rw [hmode ]
      exact ⟨by omega, by simp⟩

theorem update_lives_inv (g : Game) (dt : ℚ) (pose : Player) (moved : List Sprite)
    (h : LivesInv g) : LivesInv (update g dt pose moved) := by
  obtain ⟨h0, h1⟩ := h
  have hfl := fps_tick_lives g dt
  have hfm := fps_tick_mode g dt
  cases hm : g.mode
  case Playing =>
    rw [update_eq_playing_frame g dt pose moved hm, playing_frame_eq]
    have hg2m : (pre_check (fps_tick g dt) dt pose moved).mode = Mode.Playing := by
      show (fps_tick g dt).mode = Mode.Playing
      rw [hfm, hm]
    have hg2l : 1 ≤ (pre_check (fps_tick g dt) dt pose moved).lives := by
      show 1 ≤ (fps_tick g dt).lives
      rw [hfl]
      exact h1 (Or.inl hm)
    have hc := check_lives_inv _ hg2m hg2l
    split
    · exact ⟨hc.1, by simp⟩
    · exact ⟨hc.1, hc.2⟩
  case Menu =>
    simp only [update, hfm, hm]
    exact ⟨by rw [hfl]; exact h0, by rw [hfm, hm]; simp⟩
  case Win =>
    simp only [update, hfm, hm]
    exact ⟨by rw [hfl]; exact h0, by rw [hfm, hm]; simp⟩
  case Paused =>
    simp only [update, hfm, hm]
    exact ⟨by rw [hfl]; exact h0, fun _ => by rw [hfl]; exact h1 (Or.inr hm)⟩
  case GameOver =>
    simp only [update, hfm, hm]
    refine ⟨?_, ?_⟩
    · show 0 ≤ (fps_tick g dt).lives
      rw [hfl]
      exact h0
    · intro hc
      simp at hc

/-- C10: in every reachable game state lives are nonnegative, and whenever
the mode is `Playing` at least one life remains — the only decrement site
moves to `GameOver` in the same update when the last life is spent, so no
sequence of input events and updates drives lives below zero. -/
theorem reachable_lives_safe (g : Game) (h : Reachable g) :
    0 ≤ g.lives ∧ (g.mode = Mode.Playing → 1 ≤ g.lives) := by
  have hInv : LivesInv g := by
    induction h with
    | init ghosts =>
      exact ⟨by simp [init_game], fun hc => by simp [init_game] at hc⟩
    | step g1 st _ ih =>
      cases st with
      | key k pr ghosts => exact on_key_lives_inv g1 k pr ghosts ih
      | upd dt pose moved => exact update_lives_inv g1 dt pose moved ih
      | mouse d1 d2 p1 p2 => exact on_mouse_delta_lives_inv g1 d1 d2 p1 p2 ih
  exact ⟨hInv.1, fun hm => hInv.2 (Or.inl hm)⟩

/-- Witness for C10 at the freshly constructed game. -/
theorem reachable_lives_safe_witness :
    0 ≤ (init_game []).lives ∧
    ((init_game []).mode = Mode.Playing → 1 ≤ (init_game []).lives) :=
  reachable_lives_safe (init_game []) (Reachable.init [])
